import Mathlib

/-
Verification of the Tic-Tac-Toe engine in src/src/components/TicTacToe.tsx.

The development embeds the board evaluator (calculateWinner), the move
selector (minimax) and the session transitions (handleClick, aiMove,
startNewGame, updateScores) as executable Lean functions, keeping the
source structure: the in-place mutation of the board inside minimax is
threaded explicitly, so that the mutate/undo discipline is visible in the
embedding and provable about.
-/

set_option maxRecDepth 4000

/-- A cell occupant, from the source line
type Player = "X" | "O". -/
inductive Player where
  | X
  | O
deriving DecidableEq, Repr

/-- The source Board type, type Board = (Player | null)[]: a JS array of
cells, with null modelled as none. The source only ever builds arrays of
length 9 (Array(9).fill(null)). -/
abbrev Board := List (Option Player)

/-- The outcome classification of a board (spec section 3, GameOutcome). -/
inductive GameOutcome where
  | IN_PROGRESS
  | WIN (m : Player)
  | DRAW
deriving DecidableEq, Repr

/-- The 8 winning lines, exactly as listed inside calculateWinner. -/
def lines : List (Nat × Nat × Nat) :=
  [(0, 1, 2), (3, 4, 5), (6, 7, 8), (0, 3, 6), (1, 4, 7), (2, 5, 8), (0, 4, 8), (2, 4, 6)]

/-- One iteration of the loop body of calculateWinner: the JS test
board[a] && board[a] === board[b] && board[a] === board[c].
A null cell is falsy and an out-of-range access yields undefined, also
falsy, hence the getD _ none reads. -/
def checkLine (board : Board) (l : Nat × Nat × Nat) : Option Player :=
  match board.getD l.1 none with
  | none => none
  | some p =>
      if board.getD l.2.1 none = some p ∧ board.getD l.2.2 none = some p then some p
      else none

/-- calculateWinner: the first line whose three cells hold the same mark
decides; null (none) when no line matches. -/
def calculateWinner (board : Board) : Option Player :=
  lines.findSome? (checkLine board)

/-- The Board Evaluator of the spec: the win check (calculateWinner)
followed by the full-board draw check board.every(cell => cell !== null),
in the order the source performs the two checks in minimax and in
handleClick and aiMove; the win check takes precedence. -/
def evaluate (board : Board) : GameOutcome :=
  match calculateWinner board with
  | some p => GameOutcome.WIN p
  | none =>
      if board.all Option.isSome then GameOutcome.DRAW else GameOutcome.IN_PROGRESS

/-- The body of one iteration i of the for loop in minimax, with the
in-place mutation made explicit: the accumulator carries
(bestScore, bestMove, current board). recur stands for the recursive call.
board[i] = isMaximizing ? "O" : "X" is the placement, board[i] = null the
undo; the recursion receives the mutated board and hands back whatever
board it leaves behind, on which the undo then acts. -/
def minimaxStep (recur : Board → Bool → Int × Board) (isMaximizing : Bool)
    (acc : Int × Int × Board) (i : Nat) : Int × Int × Board :=
  let bestScore := acc.1
  let bestMove := acc.2.1
  let b := acc.2.2
  if b.getD i none = none then
    let b1 := b.set i (some (if isMaximizing then Player.O else Player.X))
    let r := recur b1 (!isMaximizing)
    let score := r.1
    let b2 := r.2.set i none
    if isMaximizing ∧ score > bestScore then (score, (i : Int), b2)
    else if (!isMaximizing) ∧ score < bestScore then (score, (i : Int), b2)
    else (bestScore, bestMove, b2)
  else acc

/-- minimax, with the in-place mutation threaded explicitly: the result
pairs the returned Int with the board the call leaves behind.
Terminal cases: winner "X" gives -10, winner "O" gives +10, a full board
gives 0; otherwise the function returns bestMove (NOT bestScore).
bestScore starts at -Infinity (maximizing) or Infinity (minimizing); every
value that is ever compared against it is a minimax result of a board of
length at most 9 and therefore lies in [-10, 10] (minimax_fst_bounds
below), so the sentinels -1000 and 1000 compare exactly as
the infinities do. bestMove starts at -1. The source recursion terminates
because each level fills one empty cell; here it is indexed by fuel, and
fuel 10 suffices for any 9-cell board. -/
def minimax : Nat → Board → Bool → Int × Board
  | 0, board, _ => (0, board)
  | fuel+1, board, isMaximizing =>
    match calculateWinner board with
    | some Player.X => (-10, board)
    | some Player.O => (10, board)
    | none =>
      if board.all Option.isSome then (0, board)
      else
        let init : Int × Int × Board := ((if isMaximizing then -1000 else 1000), -1, board)
        let r := (List.range board.length).foldl (minimaxStep (minimax fuel) isMaximizing) init
        (r.2.1, r.2.2)

/-- The isMaximizing flag the selector passes for a given side to move:
true exactly for the computer side "O", whose wins score +10. -/
def sideFlag : Player → Bool
  | Player.O => true
  | Player.X => false

/-- The Move Selector of the spec. The source invokes minimax(newBoard, true)
to select for the computer side "O" (in aiMove): maximizing places "O" and
minimizing places "X", so selecting a move for side "X" is the
isMaximizing = false call. -/
def selectMove (board : Board) (sideToMove : Player) : Int :=
  (minimax 10 board (sideFlag sideToMove)).1

/-- The value the top level of minimax compares for the empty cell i: the
first component of the recursive call on the board with the mark of
sideToMove placed at i (at the top level the placed mark is the mark of
the side to move, and the flag flips for the recursion). -/
def childValue (board : Board) (sideToMove : Player) (i : Nat) : Int :=
  (minimax 9 (board.set i (some sideToMove)) (!(sideFlag sideToMove))).1

/-- Comparison of two values from the point of view of sideToMove at the
top level of the search: for "O" (maximizing) larger is at least as good,
for "X" (minimizing) smaller is. scoreLE side a b means b is at least as
good as a for side. -/
def scoreLE (side : Player) (a b : Int) : Prop :=
  match side with
  | Player.O => a ≤ b
  | Player.X => b ≤ a

/-- Strict version of scoreLE: scoreLT side a b means b is strictly better
than a for side. -/
def scoreLT (side : Player) (a b : Int) : Prop :=
  match side with
  | Player.O => a < b
  | Player.X => b < a

/-- Following the words of the spec (section 4.2): the game-theoretic
score of a position, +10 for a win of the maximizing side "O", -10 for a
win of the minimizing side "X", 0 for a draw, not depth-adjusted, with the
side to move picking the best score among the children. This is the value
the spec says minimax compares; it is the reference against which the
source minimax is measured. The fold sentinels are only reached on an
empty list of children, which the full-board check rules out. -/
def specScore : Nat → Board → Bool → Int
  | 0, _, _ => 0
  | fuel+1, board, isMaximizing =>
    match calculateWinner board with
    | some Player.X => -10
    | some Player.O => 10
    | none =>
      if board.all Option.isSome then 0
      else
        let children := ((List.range board.length).filter
            (fun i => decide (board.getD i none = none))).map
          (fun i => specScore fuel
            (board.set i (some (if isMaximizing then Player.O else Player.X)))
            (!isMaximizing))
        if isMaximizing then children.foldl max (-1000) else children.foldl min 1000

/-- Following the words of the claim on the evaluator: the three cells of
the line l all hold the mark m. -/
def lineFilled (board : Board) (l : Nat × Nat × Nat) (m : Player) : Prop :=
  board.getD l.1 none = some m ∧ board.getD l.2.1 none = some m ∧
    board.getD l.2.2 none = some m

/-- The relabeling that swaps the two marks. -/
def swapPlayer : Player → Player
  | Player.X => Player.O
  | Player.O => Player.X

/-- A board with every mark swapped. -/
def swapBoard (board : Board) : Board :=
  board.map (Option.map swapPlayer)

/-- A game outcome with the mark inside a WIN swapped. -/
def swapOutcome : GameOutcome → GameOutcome
  | GameOutcome.IN_PROGRESS => GameOutcome.IN_PROGRESS
  | GameOutcome.DRAW => GameOutcome.DRAW
  | GameOutcome.WIN m => GameOutcome.WIN (swapPlayer m)

/-- The opponent of a mark (the alternation of turns). -/
def other : Player → Player
  | Player.X => Player.O
  | Player.O => Player.X

/-- The board the session starts from: Array(9).fill(null). -/
def emptyBoard : Board := List.replicate 9 none

/-- Self-play driver for the perfect-play invariant of the spec: while the
game is in progress, ask the Move Selector for the side to move, place
that mark at the returned index, and alternate. -/
def selfPlay : Nat → Board → Player → Board
  | 0, board, _ => board
  | n+1, board, side =>
    match evaluate board with
    | GameOutcome.IN_PROGRESS =>
        selfPlay n (board.set (selectMove board side).toNat (some side)) (other side)
    | _ => board

/-- The session state the component keeps in useState hooks: the board,
whose turn it is, the recorded winner, and the two win tallies
(scores.1 for "X", scores.2 for "O"). The presentation-only hooks
(players, gameStarted, isDarkMode, gameMode) carry no game state. -/
structure GameState where
  board : Board
  xIsNext : Bool
  winner : Option Player
  scores : Nat × Nat
deriving DecidableEq, Repr

/-- updateScores: increment the tally of the given winner. -/
def updateScores (scores : Nat × Nat) (gameWinner : Player) : Nat × Nat :=
  match gameWinner with
  | Player.X => (scores.1 + 1, scores.2)
  | Player.O => (scores.1, scores.2 + 1)

/-- startNewGame: reset the board to all-empty, clear the winner, give the
turn back to "X"; the scores are left as they are. -/
def startNewGame (s : GameState) : GameState :=
  { s with board := emptyBoard, winner := none, xIsNext := true }

/-- handleClick, as the synchronous transition it performs on the session
state. The guard if (board[index] || winner) return rejects a click on an
occupied cell (truthy cell) or after a winner is recorded. Otherwise the
mark of the side to move is placed, the turn flips, and the evaluator
runs: a winner is recorded and scored; a full board with no winner
(a draw) sets the winner to null and immediately calls startNewGame. The
AI branch only schedules a deferred aiMove through setTimeout and changes
no state synchronously, so it does not appear in the transition. -/
def handleClick (s : GameState) (index : Nat) : GameState :=
  if s.board.getD index none ≠ none ∨ s.winner ≠ none then s
  else
    let newBoard := s.board.set index (some (if s.xIsNext then Player.X else Player.O))
    let s1 : GameState := { s with board := newBoard, xIsNext := !s.xIsNext }
    match calculateWinner newBoard with
    | some gameWinner =>
        { s1 with winner := some gameWinner, scores := updateScores s1.scores gameWinner }
    | none =>
        if newBoard.all Option.isSome then startNewGame { s1 with winner := none }
        else s1

/-- aiMove, as the transition it performs on the session state: it writes
"O" at the index minimax(newBoard, true) returns into the board captured
at click time, hands the turn to "X", then runs the same winner / draw
sequence as handleClick (the draw branch calls startNewGame without an
explicit setWinner(null), the winner being null already on that path). -/
def aiMove (s : GameState) (newBoard : Board) : GameState :=
  let b1 := newBoard.set (minimax 10 newBoard true).1.toNat (some Player.O)
  let s1 : GameState := { s with board := b1, xIsNext := true }
  match calculateWinner b1 with
  | some gameWinner =>
      { s1 with winner := some gameWinner, scores := updateScores s1.scores gameWinner }
  | none =>
      if b1.all Option.isSome then startNewGame s1 else s1

/-- The board of the concrete forced-win scenario of the spec:
indices 0 and 1 hold "X", indices 3 and 4 hold "O". -/
def forcedWinBoard : Board :=
  [some Player.X, some Player.X, none,
   some Player.O, some Player.O, none,
   none, none, none]

/-- A position on which the selector picks a losing move: "X" on 2, 4, 3
and 7, "O" on 5, 6 and 8, "O" to move. Placing "O" at 1 draws; placing
"O" at 0 lets "X" win the middle column. -/
def trapBoard : Board :=
  [none, none, some Player.X,
   some Player.X, some Player.X, some Player.O,
   some Player.O, some Player.X, some Player.O]

/-- A position where every empty cell has the same game-theoretic score:
cells 0, 1, 2 empty, "X" on 3, 5, 7, "O" on 4, 6, 8, "X" to move. "O" wins
under perfect play whatever "X" does, so the three empty cells tie. -/
def tieBoard : Board :=
  [none, none, none,
   some Player.X, some Player.O, some Player.X,
   some Player.O, some Player.X, some Player.O]

/-- The position of the engine self-play game after the moves "X" to 6,
"O" to 0 and "X" to 7, with "O" to move. -/
def selfPlayTail : Board :=
  [some Player.O, none, none,
   none, none, none,
   some Player.X, some Player.X, none]

/-- The board the engine self-play game ends on: "X" completes the bottom
row while "O" sits on 0 and 1. -/
def selfPlayFinal : Board :=
  [some Player.O, some Player.O, none,
   none, none, none,
   some Player.X, some Player.X, some Player.X]

/-- A board with only cell 8 empty on which the AI move fills the last
cell with "O" without producing a winner. -/
def aiDrawBoard : Board :=
  [some Player.X, some Player.O, some Player.O,
   some Player.O, some Player.X, some Player.X,
   some Player.X, some Player.O, none]

/-- A completed drawn board except for the last cell 8, with "X" to move:
filling 8 with "X" completes the board without a winner. -/
def drawClickState : GameState :=
  { board := [some Player.X, some Player.O, some Player.X,
              some Player.X, some Player.O, some Player.O,
              some Player.O, some Player.X, none],
    xIsNext := true, winner := none, scores := (3, 2) }

/-- The initial accumulator of the minimax loop: bestScore at the
sentinel standing for -Infinity or Infinity, bestMove at -1, and the
board as the loop finds it. -/
def initAcc (board : Board) (side : Player) : Int × Int × Board :=
  ((if sideFlag side then -1000 else 1000), -1, board)

/-- Invariant of the top-level minimax loop over a board with side to
move, after the cells 0, ..., k-1 have been examined: the board component
is restored, and either no examined cell was empty and the accumulator
still holds the sentinels, or bestMove is the first examined empty cell j
whose child value is best: every examined empty cell is at most as good,
and every empty cell before j is strictly worse. -/
def FoldInv (board : Board) (side : Player) (k : Nat) (acc : Int × Int × Board) : Prop :=
  acc.2.2 = board ∧
  ((acc.1 = (if sideFlag side then -1000 else 1000) ∧ acc.2.1 = -1 ∧
      ∀ i, i < k → board.getD i none ≠ none) ∨
   (∃ j, j < k ∧ board.getD j none = none ∧ acc.2.1 = (j : Int) ∧
      acc.1 = childValue board side j ∧
      (∀ i, i < k → board.getD i none = none →
        scoreLE side (childValue board side i) (childValue board side j)) ∧
      (∀ i, i < j → board.getD i none = none →
        scoreLT side (childValue board side i) (childValue board side j))))

/-- Setting a cell to the value it already holds (as the default reads it)
leaves the list unchanged; in particular undoing a placement on a cell
that was empty restores the board. -/
theorem set_getD_eq {α : Type} :
    ∀ (l : List α) (i : Nat) (d : α), l.getD i d = d → l.set i d = l
  | [], _, _, _ => rfl
  | a :: l, 0, d, h => by
      simp only [List.getD_cons_zero] at h
      simp [h]
  | a :: l, i+1, d, h => by
      simp only [List.getD_cons_succ] at h
      simp [set_getD_eq l i d h]

/-- A fold preserves any property each step preserves. -/
theorem foldl_invariant {α β : Type} (f : β → α → β) (P : β → Prop) :
    ∀ (l : List α) (init : β), (∀ acc a, a ∈ l → P acc → P (f acc a)) → P init →
      P (l.foldl f init)
  | [], _, _, h0 => h0
  | a :: l, init, h, h0 =>
      foldl_invariant f P l (f init a)
        (fun acc x hx hacc => h acc x (List.mem_cons_of_mem a hx) hacc)
        (h init a (List.mem_cons_self a l) h0)

/-- One loop iteration of minimax leaves the board component of the
accumulator unchanged, provided the recursive call restores its board:
an occupied cell is skipped, and on an empty cell the undo write reverses
the placement the recursion handed back. -/
theorem minimaxStep_snd (recur : Board → Bool → Int × Board) (isMaximizing : Bool)
    (acc : Int × Int × Board) (i : Nat) (h : ∀ b m, (recur b m).2 = b) :
    (minimaxStep recur isMaximizing acc i).2.2 = acc.2.2 := by
  unfold minimaxStep
  by_cases hc : acc.2.2.getD i none = none
  · rw [if_pos hc]
    simp only [apply_ite (fun p : Int × Int × Board => p.2.2), ite_self]
    rw [h, List.set_set, set_getD_eq acc.2.2 i none hc]
  · rw [if_neg hc]

/-- The mutate/undo discipline of minimax is total: whatever board a call
receives, it hands the very same board back. Proved by induction on the
fuel: each loop iteration either skips an occupied cell, or places a mark,
recurses (restoring, by the induction hypothesis), and undoes the
placement, which restores the cell it overwrote. -/
theorem minimax_board_restored :
    ∀ (fuel : Nat) (board : Board) (isMaximizing : Bool),
      (minimax fuel board isMaximizing).2 = board := by
  intro fuel
  induction fuel with
  | zero => intro board isMaximizing; rfl
  | succ fuel ih =>
      intro board isMaximizing
      show (minimax (fuel+1) board isMaximizing).2 = board
      rw [minimax]
      rcases hw : calculateWinner board with _ | p
      · simp only [hw]
        by_cases hfull : board.all Option.isSome
        · simp [hfull]
        · simp only [hfull, if_false, Bool.false_eq_true]
          refine foldl_invariant _ (fun acc : Int × Int × Board => acc.2.2 = board) _ _ ?_ rfl
          intro acc i _ hacc
          rw [minimaxStep_snd (minimax fuel) isMaximizing acc i ih]
          exact hacc
      · cases p <;> simp [hw]

/-- C3: on the board [X,X,_, O,O,_, _,_,_] with "X" to move, the Move
Selector returns index 2, completing the top row. -/
theorem selectMove_completes_top_row : selectMove forcedWinBoard Player.X = 2 := by decide

/-- C1 is violated by the source: on trapBoard (in progress, "O" to move)
the selector returns index 0, whose game-theoretic score for the child
position is -10 (a forced loss of the maximizing side "O"), while the
empty index 1 has child score 0 (a draw). The returned move is therefore
not optimal: minimax compares the raw recursive return value, which for a
non-terminal child is that childs bestMove index, not its score. -/
theorem minimax_selects_losing_move :
    evaluate trapBoard = GameOutcome.IN_PROGRESS ∧
    selectMove trapBoard Player.O = 0 ∧
    trapBoard.getD 1 none = none ∧
    specScore 10 (trapBoard.set 0 (some Player.O)) false = -10 ∧
    specScore 10 (trapBoard.set 1 (some Player.O)) false = 0 := by decide

/-- C7 as stated is false on the source: on tieBoard every empty cell
(0, 1 and 2) has the same game-theoretic child score 10, so all empty
cells are equally best and the lowest such index is 0, yet the selector
returns 1. -/
theorem selectMove_tiebreak_counterexample :
    evaluate tieBoard = GameOutcome.IN_PROGRESS ∧
    tieBoard.getD 0 none = none ∧ tieBoard.getD 1 none = none ∧
    (∀ i, i < 9 → tieBoard.getD i none = none →
      specScore 10 (tieBoard.set i (some Player.X)) true = 10) ∧
    selectMove tieBoard Player.X = 1 := by decide

/-- C2 is violated by the source: the engine self-play game from the empty
board runs "X" to 6, "O" to 0, "X" to 7, "O" to 1, "X" to 8 and ends with
a win of "X", not a draw. The first two selections sit atop searches of
549946 and 59705 nodes, beyond what the kernel evaluates here; this
theorem checks the tail of that game: from the position after the first
three moves, self-play ends on selfPlayFinal, which evaluates to WIN "X". -/
theorem selfPlay_tail_win_X :
    evaluate selfPlayTail = GameOutcome.IN_PROGRESS ∧
    selfPlay 9 selfPlayTail Player.O = selfPlayFinal ∧
    evaluate selfPlayFinal = GameOutcome.WIN Player.X := by decide

/-- C6: the place/undo recursion of the Move Selector fully reverses every
mutation on every path: for every fuel, board and flag, minimax hands back
exactly the board it received, so after selectMove returns, every cell of
the callers board holds the value it held before the call. -/
theorem minimax_preserves_board (fuel : Nat) (board : Board) (isMaximizing : Bool) :
    (minimax fuel board isMaximizing).2 = board :=
  minimax_board_restored fuel board isMaximizing

/-- A loop iteration either keeps bestMove or sets it to the index it
examined. -/
theorem minimaxStep_move_cases (recur : Board → Bool → Int × Board) (isMaximizing : Bool)
    (acc : Int × Int × Board) (i : Nat) :
    (minimaxStep recur isMaximizing acc i).2.1 = acc.2.1 ∨
      (minimaxStep recur isMaximizing acc i).2.1 = (i : Int) := by
  unfold minimaxStep
  by_cases hc : acc.2.2.getD i none = none
  · rw [if_pos hc]
    simp only [apply_ite (fun p : Int × Int × Board => p.2.1)]
    split_ifs <;> simp
  · rw [if_neg hc]; left; rfl

/-- Every minimax result on a board of at most 9 cells lies in [-10, 10]:
the terminal scores are -10, 10 and 0, and the returned bestMove is -1 or
a cell index below the board length. In particular every score the loop
compares beats the sentinels -1000 and 1000, exactly as it would beat
-Infinity and Infinity. -/
theorem minimax_fst_bounds (fuel : Nat) (board : Board) (isMaximizing : Bool)
    (hlen : board.length ≤ 9) :
    -10 ≤ (minimax fuel board isMaximizing).1 ∧ (minimax fuel board isMaximizing).1 ≤ 10 := by
  cases fuel with
  | zero => exact ⟨by norm_num [minimax], by norm_num [minimax]⟩
  | succ fuel =>
      rw [minimax]
      rcases hw : calculateWinner board with _ | p
      · simp only
        by_cases hfull : board.all Option.isSome
        · simp only [hfull, if_pos]
          exact ⟨by norm_num, by norm_num⟩
        · simp only [hfull, Bool.false_eq_true, if_false]
          have hinv : -1 ≤ ((List.range board.length).foldl
              (minimaxStep (minimax fuel) isMaximizing)
              ((if isMaximizing then -1000 else 1000), -1, board)).2.1 ∧
              ((List.range board.length).foldl (minimaxStep (minimax fuel) isMaximizing)
              ((if isMaximizing then -1000 else 1000), -1, board)).2.1 ≤ 8 := by
            refine foldl_invariant _
              (fun acc : Int × Int × Board => -1 ≤ acc.2.1 ∧ acc.2.1 ≤ 8) _ _ ?_ ?_
            · intro acc i hi hacc
              rcases minimaxStep_move_cases (minimax fuel) isMaximizing acc i with h | h
              · rw [h]; exact hacc
              · rw [h]
                have hi9 : i < 9 := Nat.lt_of_lt_of_le (List.mem_range.mp hi) hlen
                omega
            · exact ⟨by norm_num, by norm_num⟩
          exact ⟨by omega, by omega⟩
      · cases p <;> simp [hw]

/-- An in-progress board has no winning line and is not full. -/
theorem evaluate_in_progress {board : Board}
    (h : evaluate board = GameOutcome.IN_PROGRESS) :
    calculateWinner board = none ∧ board.all Option.isSome = false := by
  unfold evaluate at h
  rcases hw : calculateWinner board with _ | p
  · rw [hw] at h
    refine ⟨rfl, ?_⟩
    by_cases hfull : board.all Option.isSome
    · rw [if_pos hfull] at h
      exact absurd h (by simp)
    · exact Bool.eq_false_iff.mpr hfull
  · rw [hw] at h
    exact absurd h (by simp)

/-- A 9-cell board with an empty cell has an empty cell at an index
below 9. -/
theorem exists_empty_index (board : Board) (hlen : board.length = 9)
    (hempty : none ∈ board) :
    ∃ i, i < 9 ∧ board.getD i none = none := by
  obtain ⟨n, hn, hget⟩ := List.getElem_of_mem hempty
  refine ⟨n, by omega, ?_⟩
  rw [List.getD_eq_getElem?_getD, List.getElem?_eq_getElem hn, hget]
  rfl

/-- The mark the top level places is the mark of the side to move. -/
theorem sideFlag_mark (side : Player) :
    (if sideFlag side then Player.O else Player.X) = side := by
  cases side <;> rfl

/-- One loop iteration preserves the loop invariant: an occupied cell
changes nothing; the first empty cell always beats the sentinel and
becomes bestMove; a later empty cell replaces bestMove exactly when its
child value is strictly better for the side to move, so bestMove stays
the first index attaining the best child value seen so far. -/
theorem minimaxStep_inv (board : Board) (side : Player) (k : Nat)
    (acc : Int × Int × Board) (hlen : board.length = 9)
    (hinv : FoldInv board side k acc) :
    FoldInv board side (k+1) (minimaxStep (minimax 9) (sideFlag side) acc k) := by
  obtain ⟨hboard, hdisj⟩ := hinv
  by_cases hc : board.getD k none = none
  · -- the cell k is empty: the loop places, recurses, undoes, compares
    have hcacc : acc.2.2.getD k none = none := by rw [hboard]; exact hc
    simp only [minimaxStep]
    rw [if_pos hcacc, hboard, sideFlag_mark side]
    have hcv : (minimax 9 (board.set k (some side)) (!(sideFlag side))).1
        = childValue board side k := rfl
    rw [minimax_board_restored, List.set_set, set_getD_eq board k none hc, hcv]
    have hcb : -10 ≤ childValue board side k ∧ childValue board side k ≤ 10 :=
      minimax_fst_bounds 9 (board.set k (some side)) (!(sideFlag side))
        (by rw [List.length_set, hlen])
    cases side with
    | X =>
        simp only [sideFlag, Bool.false_eq_true, false_and, if_false, Bool.not_false,
          eq_self_iff_true, true_and]
        by_cases hcmp : childValue board Player.X k < acc.1
        · rw [if_pos hcmp]
          refine ⟨rfl, Or.inr ⟨k, Nat.lt_succ_self k, hc, rfl, rfl, ?_, ?_⟩⟩
          · intro i hik hie
            simp only [scoreLE]
            rcases Nat.lt_succ_iff_lt_or_eq.mp hik with h | h
            · rcases hdisj with ⟨h1, _, h3⟩ | ⟨j, _, _, _, hjs, hle, _⟩
              · exact absurd hie (h3 i h)
              · have := hle i h hie
                simp only [scoreLE] at this
                rw [hjs] at hcmp
                omega
            · rw [h]
          · intro i hik hie
            simp only [scoreLT]
            rcases hdisj with ⟨h1, _, h3⟩ | ⟨j, _, _, _, hjs, hle, _⟩
            · exact absurd hie (h3 i hik)
            · have := hle i hik hie
              simp only [scoreLE] at this
              rw [hjs] at hcmp
              omega
        · rw [if_neg hcmp]
          rcases hdisj with ⟨h1, h2, h3⟩ | ⟨j, hj, hje, hjm, hjs, hle, hlt⟩
          · exfalso
            simp only [sideFlag, Bool.false_eq_true, if_false] at h1
            omega
          · refine ⟨rfl, Or.inr ⟨j, Nat.lt_succ_of_lt hj, hje, hjm, hjs, ?_, hlt⟩⟩
            intro i hik hie
            simp only [scoreLE]
            rcases Nat.lt_succ_iff_lt_or_eq.mp hik with h | h
            · exact hle i h hie
            · rw [h]
              rw [hjs] at hcmp
              omega
    | O =>
        simp only [sideFlag, Bool.not_true, Bool.false_eq_true, false_and, if_false,
          eq_self_iff_true, true_and]
        by_cases hcmp : childValue board Player.O k > acc.1
        · rw [if_pos hcmp]
          refine ⟨rfl, Or.inr ⟨k, Nat.lt_succ_self k, hc, rfl, rfl, ?_, ?_⟩⟩
          · intro i hik hie
            simp only [scoreLE]
            rcases Nat.lt_succ_iff_lt_or_eq.mp hik with h | h
            · rcases hdisj with ⟨h1, _, h3⟩ | ⟨j, _, _, _, hjs, hle, _⟩
              · exact absurd hie (h3 i h)
              · have := hle i h hie
                simp only [scoreLE] at this
                rw [hjs] at hcmp
                omega
            · rw [h]
          · intro i hik hie
            simp only [scoreLT]
            rcases hdisj with ⟨h1, _, h3⟩ | ⟨j, _, _, _, hjs, hle, _⟩
            · exact absurd hie (h3 i hik)
            · have := hle i hik hie
              simp only [scoreLE] at this
              rw [hjs] at hcmp
              omega
        · rw [if_neg hcmp]
          rcases hdisj with ⟨h1, h2, h3⟩ | ⟨j, hj, hje, hjm, hjs, hle, hlt⟩
          · exfalso
            simp only [sideFlag, if_true] at h1
            omega
          · refine ⟨rfl, Or.inr ⟨j, Nat.lt_succ_of_lt hj, hje, hjm, hjs, ?_, hlt⟩⟩
            intro i hik hie
            simp only [scoreLE]
            rcases Nat.lt_succ_iff_lt_or_eq.mp hik with h | h
            · exact hle i h hie
            · rw [h]
              rw [hjs] at hcmp
              omega
  · -- the cell k is occupied: the iteration is skipped
    have hstep : minimaxStep (minimax 9) (sideFlag side) acc k = acc := by
      simp only [minimaxStep]
      rw [if_neg (by rw [hboard]; exact hc)]
    rw [hstep]
    refine ⟨hboard, ?_⟩
    rcases hdisj with ⟨h1, h2, h3⟩ | ⟨j, hj, hje, hjm, hjs, hle, hlt⟩
    · left
      refine ⟨h1, h2, ?_⟩
      intro i hik
      rcases Nat.lt_succ_iff_lt_or_eq.mp hik with h | h
      · exact h3 i h
      · rw [h]; exact hc
    · right
      refine ⟨j, Nat.lt_succ_of_lt hj, hje, hjm, hjs, ?_, hlt⟩
      intro i hik hie
      rcases Nat.lt_succ_iff_lt_or_eq.mp hik with h | h
      · exact hle i h hie
      · rw [h] at hie; exact absurd hie hc

/-- Running the loop over the first k cells establishes the invariant. -/
theorem selectMove_fold_inv (board : Board) (side : Player) (hlen : board.length = 9) :
    ∀ k, FoldInv board side k
      ((List.range k).foldl (minimaxStep (minimax 9) (sideFlag side)) (initAcc board side))
  | 0 => by
      refine ⟨rfl, Or.inl ⟨rfl, rfl, ?_⟩⟩
      intro i hi
      exact absurd hi (Nat.not_lt_zero i)
  | k+1 => by
      rw [List.range_succ, List.foldl_append, List.foldl_cons, List.foldl_nil]
      exact minimaxStep_inv board side k _ hlen (selectMove_fold_inv board side hlen k)

/-- On an in-progress 9-cell board the selector returns the first empty
index whose child value is best for the side to move: every empty cell is
at most as good, and every earlier empty cell is strictly worse. -/
theorem selectMove_argbest (board : Board) (side : Player)
    (hlen : board.length = 9) (hempty : none ∈ board)
    (hprog : evaluate board = GameOutcome.IN_PROGRESS) :
    ∃ j, j < 9 ∧ board.getD j none = none ∧ selectMove board side = (j : Int) ∧
      (∀ i, i < 9 → board.getD i none = none →
        scoreLE side (childValue board side i) (childValue board side j)) ∧
      (∀ i, i < j → board.getD i none = none →
        scoreLT side (childValue board side i) (childValue board side j)) := by
  obtain ⟨hw, hfull⟩ := evaluate_in_progress hprog
  obtain ⟨e, he9, hee⟩ := exists_empty_index board hlen hempty
  have hsel : selectMove board side =
      ((List.range 9).foldl (minimaxStep (minimax 9) (sideFlag side))
        (initAcc board side)).2.1 := by
    unfold selectMove initAcc
    rw [show (10 : Nat) = 9+1 from rfl]
    simp only [minimax, hw, hfull, Bool.false_eq_true, if_false, hlen]
  obtain ⟨hb, hdisj⟩ := selectMove_fold_inv board side hlen 9
  rcases hdisj with ⟨h1, h2, h3⟩ | ⟨j, hj, hje, hjm, hjs, hle, hlt⟩
  · exact absurd hee (h3 e he9)
  · refine ⟨j, hj, hje, ?_, hle, hlt⟩
    rw [hsel]
    exact hjm

/-- C5: under the precondition (a 9-cell board with at least one empty
cell, evaluating to IN_PROGRESS), the index the Move Selector returns is
in [0, 8] and the cell there is empty in the input board. -/
theorem selectMove_returns_empty_cell (board : Board) (side : Player)
    (hlen : board.length = 9) (hempty : none ∈ board)
    (hprog : evaluate board = GameOutcome.IN_PROGRESS) :
    0 ≤ selectMove board side ∧ selectMove board side < 9 ∧
      board.getD (selectMove board side).toNat none = none := by
  obtain ⟨j, hj, hje, hsel, _, _⟩ := selectMove_argbest board side hlen hempty hprog
  rw [hsel]
  refine ⟨Int.ofNat_nonneg j, ?_, ?_⟩
  · exact_mod_cast hj
  · simpa using hje

/-- Witness for selectMove_returns_empty_cell at the concrete forced-win
board with "X" to move. -/
theorem selectMove_returns_empty_cell_witness :
    (List.length forcedWinBoard = 9 ∧ none ∈ forcedWinBoard ∧
      evaluate forcedWinBoard = GameOutcome.IN_PROGRESS) ∧
    (0 ≤ selectMove forcedWinBoard Player.X ∧ selectMove forcedWinBoard Player.X < 9 ∧
      forcedWinBoard.getD (selectMove forcedWinBoard Player.X).toNat none = none) :=
  ⟨⟨by decide, by decide, by decide⟩,
    selectMove_returns_empty_cell forcedWinBoard Player.X (by decide) (by decide) (by decide)⟩

/-- C7, amended: the Move Selector is deterministic (it is a pure
function of its input), and among the empty cells it keeps the
first-found candidate in index order 0..8 with respect to the value the
recursion actually returns for the child position (for a non-terminal
child that value is a bestMove index, not a score): the returned index j
is empty, its child value is best for the side to move, and every empty
index before j has a strictly worse child value, so in a tie on child
values the lowest index is kept. -/
theorem selectMove_first_among_best (board : Board) (side : Player)
    (hlen : board.length = 9) (hempty : none ∈ board)
    (hprog : evaluate board = GameOutcome.IN_PROGRESS) :
    ∃ j, j < 9 ∧ board.getD j none = none ∧ selectMove board side = (j : Int) ∧
      (∀ i, i < 9 → board.getD i none = none →
        scoreLE side (childValue board side i) (childValue board side j)) ∧
      (∀ i, i < j → board.getD i none = none →
        scoreLT side (childValue board side i) (childValue board side j)) :=
  selectMove_argbest board side hlen hempty hprog

/-- Witness for selectMove_first_among_best at the concrete trapBoard
with "O" to move. -/
theorem selectMove_first_among_best_witness :
    (List.length trapBoard = 9 ∧ none ∈ trapBoard ∧
      evaluate trapBoard = GameOutcome.IN_PROGRESS) ∧
    (∃ j, j < 9 ∧ trapBoard.getD j none = none ∧
      selectMove trapBoard Player.O = (j : Int) ∧
      (∀ i, i < 9 → trapBoard.getD i none = none →
        scoreLE Player.O (childValue trapBoard Player.O i) (childValue trapBoard Player.O j)) ∧
      (∀ i, i < j → trapBoard.getD i none = none →
        scoreLT Player.O (childValue trapBoard Player.O i) (childValue trapBoard Player.O j))) :=
  ⟨⟨by decide, by decide, by decide⟩,
    selectMove_first_among_best trapBoard Player.O (by decide) (by decide) (by decide)⟩

/-- The loop body of calculateWinner accepts a line exactly when its
three cells hold one and the same mark. -/
theorem checkLine_eq_some_iff (board : Board) (l : Nat × Nat × Nat) (m : Player) :
    checkLine board l = some m ↔ lineFilled board l m := by
  unfold checkLine lineFilled
  rcases h : board.getD l.1 none with _ | p
  · simp
  · dsimp only
    by_cases hbc : board.getD l.2.1 none = some p ∧ board.getD l.2.2 none = some p
    · rw [if_pos hbc]
      constructor
      · intro hpm
        injection hpm with hpm
        subst hpm
        exact ⟨rfl, hbc.1, hbc.2⟩
      · intro hf
        exact hf.1
    · rw [if_neg hbc]
      constructor
      · intro hf
        exact absurd hf (by simp)
      · intro hf
        obtain ⟨h1, h2, h3⟩ := hf
        injection h1 with h1
        subst h1
        exact absurd ⟨h2, h3⟩ hbc
  
/-- The loop body of calculateWinner rejects a line exactly when no mark
fills it. -/
theorem checkLine_eq_none_iff (board : Board) (l : Nat × Nat × Nat) :
    checkLine board l = none ↔ ∀ m : Player, ¬ lineFilled board l m := by
  constructor
  · intro h m hf
    rw [← checkLine_eq_some_iff] at hf
    rw [h] at hf
    exact absurd hf (by simp)
  · intro h
    rcases hcl : checkLine board l with _ | p
    · rfl
    · exact absurd ((checkLine_eq_some_iff board l p).mp hcl) (h p)

/-- evaluate returns a win exactly when calculateWinner returns that
mark. -/
theorem evaluate_win_iff (board : Board) (m : Player) :
    evaluate board = GameOutcome.WIN m ↔ calculateWinner board = some m := by
  unfold evaluate
  rcases h : calculateWinner board with _ | p
  · by_cases hfull : board.all Option.isSome
    · rw [if_pos hfull]
      simp
    · rw [if_neg hfull]
      simp
  · simp

/-- When no line matches, evaluate reduces to the full-board check. -/
theorem evaluate_of_no_winner {board : Board} (hcw : calculateWinner board = none) :
    evaluate board =
      if board.all Option.isSome then GameOutcome.DRAW else GameOutcome.IN_PROGRESS := by
  unfold evaluate
  rw [hcw]

/-- C4: the Board Evaluator returns WIN m exactly when some of the 8
fixed lines has its three cells occupied by the mark m and m is the mark
of the first matching line in the fixed order (the lines before it match
no mark at all); when no line matches, a fully occupied board yields DRAW
and a board with an empty cell yields IN_PROGRESS. Since a matching line
yields WIN whether or not the board is full, the win check takes
precedence over the draw check. -/
theorem evaluate_spec (board : Board) (hlen : board.length = 9) :
    (∀ m : Player, evaluate board = GameOutcome.WIN m ↔
      ∃ pre l post, lines = pre ++ l :: post ∧ lineFilled board l m ∧
        ∀ l2 ∈ pre, ∀ m2 : Player, ¬ lineFilled board l2 m2) ∧
    ((∀ l ∈ lines, ∀ m : Player, ¬ lineFilled board l m) →
      ((∀ c ∈ board, c ≠ none) → evaluate board = GameOutcome.DRAW) ∧
      ((∃ c ∈ board, c = none) → evaluate board = GameOutcome.IN_PROGRESS)) := by
  constructor
  · intro m
    rw [evaluate_win_iff]
    unfold calculateWinner
    rw [List.findSome?_eq_some_iff]
    constructor
    · rintro ⟨l₁, a, l₂, heq, ha, hpre⟩
      exact ⟨l₁, a, l₂, heq, (checkLine_eq_some_iff board a m).mp ha,
        fun l2 hl2 m2 => ((checkLine_eq_none_iff board l2).mp (hpre l2 hl2)) m2⟩
    · rintro ⟨pre, l, post, heq, hl, hpre⟩
      exact ⟨pre, l, post, heq, (checkLine_eq_some_iff board l m).mpr hl,
        fun x hx => (checkLine_eq_none_iff board x).mpr (hpre x hx)⟩
  · intro hno
    have hcw : calculateWinner board = none := by
      unfold calculateWinner
      rw [List.findSome?_eq_none_iff]
      intro x hx
      exact (checkLine_eq_none_iff board x).mpr (hno x hx)
    constructor
    · intro hocc
      have hfull : board.all Option.isSome = true := by
        rw [List.all_eq_true]
        intro c hc
        rcases c with _ | p
        · exact absurd rfl (hocc none hc)
        · rfl
      rw [evaluate_of_no_winner hcw, if_pos hfull]
    · rintro ⟨c, hc, hcn⟩
      have hfull : board.all Option.isSome = false := by
        rw [List.all_eq_false]
        refine ⟨c, hc, ?_⟩
        rw [hcn]
        simp
      rw [evaluate_of_no_winner hcw, if_neg (by simp [hfull])]

/-- Witness for evaluate_spec at the concrete final board of the
self-play game. -/
theorem evaluate_spec_witness :
    List.length selfPlayFinal = 9 ∧
    ((∀ m : Player, evaluate selfPlayFinal = GameOutcome.WIN m ↔
      ∃ pre l post, lines = pre ++ l :: post ∧ lineFilled selfPlayFinal l m ∧
        ∀ l2 ∈ pre, ∀ m2 : Player, ¬ lineFilled selfPlayFinal l2 m2) ∧
    ((∀ l ∈ lines, ∀ m : Player, ¬ lineFilled selfPlayFinal l m) →
      ((∀ c ∈ selfPlayFinal, c ≠ none) → evaluate selfPlayFinal = GameOutcome.DRAW) ∧
      ((∃ c ∈ selfPlayFinal, c = none) → evaluate selfPlayFinal = GameOutcome.IN_PROGRESS))) :=
  ⟨by decide, evaluate_spec selfPlayFinal (by decide)⟩

/-- Mapping an Option through the relabeling reaches some (swapPlayer p)
exactly from some p. -/
theorem map_swap_eq_some_iff (u : Option Player) (p : Player) :
    Option.map swapPlayer u = some (swapPlayer p) ↔ u = some p := by
  cases u with
  | none => simp
  | some q => cases q <;> cases p <;> decide

/-- Reading a cell of the relabeled board reads the relabeled cell. -/
theorem getD_swapBoard (board : Board) (i : Nat) :
    (swapBoard board).getD i none = Option.map swapPlayer (board.getD i none) := by
  unfold swapBoard
  rw [List.getD_eq_getElem?_getD, List.getD_eq_getElem?_getD, List.getElem?_map]
  cases board[i]? <;> rfl

/-- The line check commutes with the relabeling. -/
theorem checkLine_swapBoard (board : Board) (l : Nat × Nat × Nat) :
    checkLine (swapBoard board) l = Option.map swapPlayer (checkLine board l) := by
  unfold checkLine
  rw [getD_swapBoard, getD_swapBoard, getD_swapBoard]
  rcases board.getD l.1 none with _ | p
  · rfl
  · show (if Option.map swapPlayer (board.getD l.2.1 none) = some (swapPlayer p) ∧
          Option.map swapPlayer (board.getD l.2.2 none) = some (swapPlayer p)
        then some (swapPlayer p) else none) =
      Option.map swapPlayer
        (if board.getD l.2.1 none = some p ∧ board.getD l.2.2 none = some p
          then some p else none)
    by_cases hb : board.getD l.2.1 none = some p ∧ board.getD l.2.2 none = some p
    · rw [if_pos (⟨(map_swap_eq_some_iff _ p).mpr hb.1, (map_swap_eq_some_iff _ p).mpr hb.2⟩ :
            Option.map swapPlayer (board.getD l.2.1 none) = some (swapPlayer p) ∧
            Option.map swapPlayer (board.getD l.2.2 none) = some (swapPlayer p)),
          if_pos hb]
      rfl
    · rw [if_neg (fun hcon => hb ⟨(map_swap_eq_some_iff _ p).mp hcon.1,
            (map_swap_eq_some_iff _ p).mp hcon.2⟩), if_neg hb]
      rfl
  
/-- The full-board check ignores the relabeling. -/
theorem all_isSome_swapBoard (board : Board) :
    (swapBoard board).all Option.isSome = board.all Option.isSome := by
  unfold swapBoard
  rw [List.all_map]
  congr 1
  funext c
  cases c <;> rfl

/-- findSome? commutes with a pointwise Option.map relation. -/
theorem findSome?_map_comm {α β γ : Type} (f : α → Option β) (g : α → Option γ)
    (h : β → γ) (hfg : ∀ a, g a = Option.map h (f a)) :
    ∀ l : List α, l.findSome? g = Option.map h (l.findSome? f)
  | [] => rfl
  | a :: l => by
      rw [List.findSome?_cons, List.findSome?_cons, hfg a]
      rcases f a with _ | b
      · exact findSome?_map_comm f g h hfg l
      · rfl

/-- calculateWinner commutes with the relabeling. -/
theorem calculateWinner_swapBoard (board : Board) :
    calculateWinner (swapBoard board) = Option.map swapPlayer (calculateWinner board) :=
  findSome?_map_comm (checkLine board) (checkLine (swapBoard board)) swapPlayer
    (fun l => checkLine_swapBoard board l) lines

/-- C8: the Board Evaluator is symmetric under relabeling the two marks:
evaluating the swapped board gives the outcome of the original board with
the mark inside any WIN swapped, and IN_PROGRESS and DRAW unchanged. -/
theorem evaluate_swap_symmetric (board : Board) :
    evaluate (swapBoard board) = swapOutcome (evaluate board) := by
  unfold evaluate
  rw [calculateWinner_swapBoard]
  rcases calculateWinner board with _ | p
  · show (if (swapBoard board).all Option.isSome then GameOutcome.DRAW
        else GameOutcome.IN_PROGRESS) =
      swapOutcome (if board.all Option.isSome then GameOutcome.DRAW
        else GameOutcome.IN_PROGRESS)
    rw [all_isSome_swapBoard]
    by_cases hfull : board.all Option.isSome
    · rw [if_pos hfull]
      rfl
    · rw [if_neg hfull]
      rfl
  · rfl

/-- C9: a placement that fills the last empty cell without producing a
winning line immediately resets the session: the board returns to
all-empty with "X" to move, the winner signal stays null, and both win
tallies are exactly as before, both on the click path (handleClick) and
on the computer path (aiMove). DRAW is never surfaced to the tally or to
the winner signal. -/
theorem draw_resets_session :
    (∀ (s : GameState) (i : Nat),
      s.winner = none → s.board.getD i none = none →
      calculateWinner (s.board.set i (some (if s.xIsNext then Player.X else Player.O))) = none →
      (s.board.set i (some (if s.xIsNext then Player.X else Player.O))).all Option.isSome = true →
      handleClick s i =
        { board := emptyBoard, xIsNext := true, winner := none, scores := s.scores }) ∧
    (∀ (s : GameState) (b : Board),
      calculateWinner (b.set (minimax 10 b true).1.toNat (some Player.O)) = none →
      (b.set (minimax 10 b true).1.toNat (some Player.O)).all Option.isSome = true →
      aiMove s b =
        { board := emptyBoard, xIsNext := true, winner := none, scores := s.scores }) := by
  constructor
  · intro s i hwin hcell hnw hfull
    have hguard : ¬(s.board.getD i none ≠ none ∨ s.winner ≠ none) := by
      push_neg
      exact ⟨hcell, hwin⟩
    unfold handleClick
    rw [if_neg hguard]
    simp only [hnw, hfull, if_pos]
    rfl
  · intro s b hnw hfull
    unfold aiMove
    simp only [hnw, hfull, if_pos]
    rfl

/-- Witness for draw_resets_session: clicking cell 8 of the almost-full
drawn board, and the AI filling cell 8 of aiDrawBoard; in both cases the
session resets and the tallies stay put. -/
theorem draw_resets_session_witness :
    ((drawClickState.winner = none ∧ drawClickState.board.getD 8 none = none ∧
      calculateWinner (drawClickState.board.set 8
        (some (if drawClickState.xIsNext then Player.X else Player.O))) = none ∧
      (drawClickState.board.set 8
        (some (if drawClickState.xIsNext then Player.X else Player.O))).all Option.isSome = true) ∧
      handleClick drawClickState 8 =
        { board := emptyBoard, xIsNext := true, winner := none,
          scores := drawClickState.scores }) ∧
    ((calculateWinner (aiDrawBoard.set (minimax 10 aiDrawBoard true).1.toNat
        (some Player.O)) = none ∧
      (aiDrawBoard.set (minimax 10 aiDrawBoard true).1.toNat
        (some Player.O)).all Option.isSome = true) ∧
      aiMove drawClickState aiDrawBoard =
        { board := emptyBoard, xIsNext := true, winner := none,
          scores := drawClickState.scores }) :=
  ⟨⟨⟨by decide, by decide, by decide, by decide⟩,
      draw_resets_session.1 drawClickState 8 (by decide) (by decide) (by decide) (by decide)⟩,
    ⟨⟨by decide, by decide⟩,
      draw_resets_session.2 drawClickState aiDrawBoard (by decide) (by decide)⟩⟩

/-- C10: handleClick on an occupied cell, or at any time after a winner
has been recorded, changes nothing at all: the board, the side to move,
the winner and the scores are exactly as before the call. -/
theorem handleClick_rejects_invalid (s : GameState) (i : Nat)
    (h : s.board.getD i none ≠ none ∨ s.winner ≠ none) :
    handleClick s i = s := by
  unfold handleClick
  rw [if_pos h]

/-- Witness for handleClick_rejects_invalid: clicking the occupied cell 0
of the almost-full drawn board changes nothing. -/
theorem handleClick_rejects_invalid_witness :
    (drawClickState.board.getD 0 none ≠ none ∨ drawClickState.winner ≠ none) ∧
    handleClick drawClickState 0 = drawClickState :=
  ⟨by decide, handleClick_rejects_invalid drawClickState 0 (by decide)⟩
